import Mathlib

/-!
# LinguaFlix core — shallow embedding and verification

This file embeds the subtitle-synchronization core of the LinguaFlix
browser extension in Lean 4 and proves (or refutes) the properties of its
natural-language specification.

Embedded modules (translated from the JavaScript sources):
* `src/src/modules/subtitle-parser.js` — `parseTTML`, `findCueAt`,
  `timeToMs`, `extractCueText`;
* `src/src/modules/subtitle-fetcher.js` — `setupSubtitleFetching`,
  `handleSubtitleResponse`, `isSubtitleRequest`, `getSubtitleCache`,
  `cleanup`;
* `src/src/modules/player-api-connector.js` — `getPlayerAPI` (bounded
  exponential-backoff session discovery);
* `src/content.js` — the session-discovery retry loop of `armVideoFlow`.

Modelling conventions:
* JavaScript numbers that the code uses as integers (tick counts,
  millisecond timestamps, retry counters, delays) are `Int`/`Nat`.
  `Math.round` / `Math.floor` are made explicit (`jsRound`, `Nat` floor
  division).  The float expression `Math.round((ticks / tickRate) * 1000)`
  is modelled as exact rational rounding of `ticks * 1000 / tickRate`,
  which agrees with the IEEE evaluation at the magnitudes appearing here.
* The DOM tree produced by `DOMParser` is the inductive `XmlNode`;
  `document.querySelectorAll('body p')` is the document-order collection
  of `p` elements having a `body` ancestor.
* Fallible host behaviour is explicit: a non-string argument or an XML
  parse error is a `ParserInput` constructor; absent object-graph pieces
  are `Option`.
* Module-scoped mutable state becomes explicit state records threaded
  through the operations.
-/

namespace LinguaFlix

/-! ## Data model -/

/-- A parsed subtitle cue, as built by `parseTTML` in
`subtitle-parser.js`: `{ text, start, end }` with times in
milliseconds. -/
structure Cue where
  text : String
  start : Int
  «end» : Int
deriving Repr, DecidableEq

/-- The XML DOM tree that `DOMParser.parseFromString` yields for a
well-formed document: text nodes (`nodeType === 3`) and element nodes
(`nodeType === 1`) with a tag name, attributes and children. -/
inductive XmlNode where
  | text (value : String)
  | elem (tag : String) (attrs : List (String × String)) (children : List XmlNode)

/-- Model of `Element.getAttribute`: the value of the first attribute with the
given name, or `none` when the attribute is absent (JS `null`). -/
def getAttribute (n : XmlNode) (name : String) : Option String :=
  match n with
  | .text _ => none
  | .elem _ attrs _ => (attrs.find? (fun a => a.1 == name)).map (·.2)

/-- The argument of `parseTTML`.  `notAString` covers JS `null`,
`undefined`, the empty string and any non-string value (all rejected by
the guard `!xmlString || typeof xmlString !== 'string'`); `invalidXml`
is a document for which `DOMParser` produced a `parsererror` element;
`doc root` is a structurally valid document with root element `root`. -/
inductive ParserInput where
  | notAString
  | invalidXml
  | doc (root : XmlNode)

/-- The return value of `parseTTML`: `{ cues: [...], language }` with
`language = none` for JS `null`. -/
structure ParseResult where
  cues : List Cue
  language : Option String
deriving Repr, DecidableEq

/-! ## String helpers shared by the embedded modules -/

/-- The whitespace characters recognised by JS `String.prototype.trim`
and by `parseInt`'s leading-whitespace skip (the ones that can occur
here). -/
def jsWhitespaceChar (c : Char) : Bool :=
  c = ' ' || c = '\t' || c = '\n' || c = '\r' ||
  c = '\u000B' || c = '\u000C' || c = ' ' || c = '﻿'

/-- ASCII lowercasing of one character, as JS `toLowerCase()` acts on
the tag names occurring here. -/
def lowerChar (c : Char) : Char :=
  if 'A' ≤ c ∧ c ≤ 'Z' then Char.ofNat (c.toNat + 32) else c

/-- JS `String.prototype.toLowerCase` on a tag name. -/
def lowerString (s : String) : String :=
  String.mk (s.data.map lowerChar)

/-- Numeric value of a decimal digit run. -/
def digitsVal (ds : List Char) : Nat :=
  ds.foldl (fun acc d => acc * 10 + (d.toNat - '0'.toNat)) 0

/-- JS `parseInt(s, 10)`: skip leading whitespace, read an optional
sign, then the longest prefix of decimal digits; `none` models `NaN`
(no digit found). -/
def parseIntJs (s : String) : Option Int :=
  let cs := s.data.dropWhile jsWhitespaceChar
  match cs with
  | '-' :: r =>
    let ds := r.takeWhile Char.isDigit
    if ds.isEmpty then none else some (-(digitsVal ds : Int))
  | '+' :: r =>
    let ds := r.takeWhile Char.isDigit
    if ds.isEmpty then none else some (digitsVal ds : Int)
  | r =>
    let ds := r.takeWhile Char.isDigit
    if ds.isEmpty then none else some (digitsVal ds : Int)

/-- JS `url.includes(sub)` on the character list level. -/
def listIncludes (l sub : List Char) : Bool :=
  (List.range (l.length + 1)).any (fun i => sub.isPrefixOf (l.drop i))

/-- JS `String.prototype.includes`. -/
def stringIncludes (s sub : String) : Bool :=
  listIncludes s.data sub.data

/-- Model of `Math.round (p / q)` for integer `p`, `q`: round half toward
positive infinity, i.e. `⌊p/q + 1/2⌋`.  (For `q = 0` the JS code would
produce a non-finite value; `Int.fdiv _ 0 = 0` here, a case never
reached by the properties below.) -/
def jsRound (p q : Int) : Int :=
  Int.fdiv (2 * p + q) (2 * q)

/-! ## `subtitle-parser.js` — `timeToMs` -/

/-- Model of `timeToMs(timeStr, tickRate)`: a string `"<n>t"` is `n` ticks,
converted by `Math.round((ticks / tickRate) * 1000)` (modelled as exact
rational rounding of `ticks * 1000 / tickRate`); a falsy (empty)
string, a string not ending in `t`, or a tick field that `parseInt`
cannot read (`NaN`) yields `0`.  `timeStr.endsWith('t')` is the check
on the last character and `timeStr.slice(0, -1)` is `dropLast`. -/
def timeToMs (timeStr : String) (tickRate : Int) : Int :=
  if timeStr = "" then 0
  else if timeStr.data.getLast? = some 't' then
    match parseIntJs (String.mk timeStr.data.dropLast) with
    | some ticks => jsRound (ticks * 1000) tickRate
    | none => 0
  else 0

/-! ## `subtitle-parser.js` — `extractCueText` -/

mutual

/-- The depth-first walk of `extractCueText`: a text node contributes
its `nodeValue`, a `<br>` element (tag compared lowercased) contributes
`"\n"` and then its descendants, any other element only its
descendants. -/
def walkParts : XmlNode → List String
  | .text v => [v]
  | .elem tag _ children =>
    (if lowerString tag = "br" then ["\n"] else []) ++ walkPartsList children

/-- Model of `walkParts` over a child list, in document order. -/
def walkPartsList : List XmlNode → List String
  | [] => []
  | n :: ns => walkParts n ++ walkPartsList ns

end

/-- Horizontal whitespace of the regex class `[ \t ]`. -/
def horizWs (c : Char) : Bool :=
  c = ' ' || c = '\t' || c = ' '

/-- Space or tab, the regex class `[ \t]`. -/
def spaceTab (c : Char) : Bool :=
  c = ' ' || c = '\t'

/-- Model of `text.replace(/[ \t ]+/g, ' ')`: collapse each maximal run of
horizontal whitespace to a single space.  The flag records whether the
previous character belonged to the current run. -/
def collapseHorizWs (inRun : Bool) : List Char → List Char
  | [] => []
  | c :: cs =>
    if horizWs c then
      (if inRun then [] else [' ']) ++ collapseHorizWs true cs
    else c :: collapseHorizWs false cs

/-- Drop the space/tab run immediately following each newline (one
direction of `text.replace(/[ \t]*\n[ \t]*/g, '\n')`).  The flag records
whether we are inside a run that started right after a `'\n'`. -/
def dropWsAfterNl (afterNl : Bool) : List Char → List Char
  | [] => []
  | c :: cs =>
    if c = '\n' then '\n' :: dropWsAfterNl true cs
    else if afterNl && spaceTab c then dropWsAfterNl true cs
    else c :: dropWsAfterNl false cs

/-- Model of `text.replace(/[ \t]*\n[ \t]*/g, '\n')`: every maximal space/tab
run adjacent to a newline (on either side) is removed.  Runs before a
newline are handled by running `dropWsAfterNl` on the reversed list. -/
def trimAroundNl (l : List Char) : List Char :=
  dropWsAfterNl false ((dropWsAfterNl false l.reverse).reverse)

/-- Model of `text.replace(/\n{3,}/g, '\n\n')`: cap each run of newlines at two.
`k` counts the newlines already emitted for the current run. -/
def capNlRuns (k : Nat) : List Char → List Char
  | [] => []
  | c :: cs =>
    if c = '\n' then
      if k ≥ 2 then capNlRuns k cs
      else '\n' :: capNlRuns (k + 1) cs
    else c :: capNlRuns 0 cs

/-- JS `String.prototype.trim` on a character list. -/
def jsTrim (l : List Char) : List Char :=
  ((l.dropWhile jsWhitespaceChar).reverse.dropWhile jsWhitespaceChar).reverse

/-- The normalisation chain of `extractCueText`: strip `\r`, collapse
horizontal whitespace, trim whitespace adjacent to newlines, cap
newline runs at two, trim the ends. -/
def normalizeCueText (s : String) : String :=
  let l := s.data.filter (fun c => c ≠ '\r')
  let l := collapseHorizWs false l
  let l := trimAroundNl l
  let l := capNlRuns 0 l
  String.mk (jsTrim l)

/-- Model of `extractCueText(node)`: join the walked parts and normalise.  (The
source wraps this in try/catch returning `''`; the walk of the modelled
tree is pure, so the catch arm is unreachable here.) -/
def extractCueText (node : XmlNode) : String :=
  normalizeCueText (String.join (walkParts node))

/-! ## `subtitle-parser.js` — `parseTTML` -/

mutual

/-- Collecting pass of `xmlDoc.querySelectorAll('body p')`: the `p`
elements with a `body` ancestor, in document (pre-)order.  `inBody`
records whether some ancestor of the current node is a `body`
element. -/
def collectPs (inBody : Bool) : XmlNode → List XmlNode
  | .text _ => []
  | .elem tag attrs children =>
    (if tag == "p" && inBody then [XmlNode.elem tag attrs children] else []) ++
      collectPsList (inBody || tag == "body") children

/-- Model of `collectPs` over a child list, in document order. -/
def collectPsList (inBody : Bool) : List XmlNode → List XmlNode
  | [] => []
  | n :: ns => collectPs inBody n ++ collectPsList inBody ns

end

/-- Model of `xmlDoc.querySelectorAll('body p')` from the document root. -/
def queryBodyPs (root : XmlNode) : List XmlNode :=
  collectPs false root

/-- The tick rate read from the root:
`tickRateAttr ? parseInt(tickRateAttr, 10) : 10000000` (an absent or
empty attribute is falsy).  A present, non-empty, non-numeric attribute
gives `NaN` in the source, making every converted time non-finite; that
degenerate case is mapped to tick rate `0` here (all times `0`), the
one point where the model departs from IEEE `NaN` propagation. -/
def docTickRate (root : XmlNode) : Int :=
  match getAttribute root "ttp:tickRate" with
  | some s => if s = "" then 10000000 else (parseIntJs s).getD 0
  | none => 10000000

/-- The language read from the root: an absent or empty `xml:lang` is
falsy and leaves `language` as `null`; a bare `"en"` is normalised to
`"en-US"`; anything else passes through verbatim. -/
def docLanguage (root : XmlNode) : Option String :=
  match getAttribute root "xml:lang" with
  | some l => if l = "" then none else some (if l = "en" then "en-US" else l)
  | none => none

/-- The per-paragraph step of `parseTTML`'s loop: skip the node when
`begin` or `end` is absent or empty (falsy), convert both times with
`timeToMs`, and keep the cue only when the extracted text is
non-empty. -/
def cueOfP (tickRate : Int) (p : XmlNode) : Option Cue :=
  match getAttribute p "begin", getAttribute p "end" with
  | some b, some e =>
    if b = "" ∨ e = "" then none
    else
      let text := extractCueText p
      if text = "" then none
      else some ⟨text, timeToMs b tickRate, timeToMs e tickRate⟩
  | _, _ => none

/-- The comparison underlying `result.cues.sort((a, b) => a.start - b.start)`. -/
def cueLE (a b : Cue) : Prop :=
  a.start ≤ b.start

instance : DecidableRel cueLE := fun a b =>
  (inferInstance : Decidable (a.start ≤ b.start))

instance : IsTotal Cue cueLE :=
  ⟨fun a b => le_total a.start b.start⟩

instance : IsTrans Cue cueLE :=
  ⟨fun _ _ _ hab hbc => le_trans hab hbc⟩

/-- Model of `result.cues.sort((a, b) => a.start - b.start)`: a stable ascending
sort by `start`. -/
def sortCues (cues : List Cue) : List Cue :=
  List.insertionSort cueLE cues

/-- Model of `parseTTML(xmlString)`.  A non-string/empty argument and an XML
parse error return the initial `{ cues: [], language: null }`; a valid
document yields the language and tick rate of the root, one optional
cue per `body p` paragraph, and the cue list sorted by start time.
(The early `return result` when no `p` element exists equals running
the loop over an empty collection.  The surrounding try/catch and the
log calls have no effect on the returned value.) -/
def parseTTML : ParserInput → ParseResult
  | .notAString => ⟨[], none⟩
  | .invalidXml => ⟨[], none⟩
  | .doc root =>
    ⟨sortCues ((queryBodyPs root).filterMap (cueOfP (docTickRate root))),
      docLanguage root⟩

/-! ## `subtitle-parser.js` — `findCueAt` -/

/-- The argument of `findCueAt`: the source first rejects anything that
is not an array (`!Array.isArray(cues)`). -/
inductive JsCuesArg where
  | notArray
  | array (cues : List Cue)

/-- The scan loop of `findCueAt`: return the first cue containing the
timestamp (`timeMs >= c.start && timeMs < c.end`); break (returning
`null`) as soon as `timeMs < c.start`. -/
def findCueAtList (timeMs : Int) : List Cue → Option Cue
  | [] => none
  | c :: rest =>
    if c.start ≤ timeMs ∧ timeMs < c.«end» then some c
    else if timeMs < c.start then none
    else findCueAtList timeMs rest

/-- Model of `findCueAt(timeMs, cues)`: `null` for a non-array or empty array,
otherwise the scan loop.  (An empty array also makes the loop return
`null`, so the length guard is behaviourally redundant.) -/
def findCueAt (timeMs : Int) : JsCuesArg → Option Cue
  | .notArray => none
  | .array cues => findCueAtList timeMs cues

/-! ## `player-api-connector.js` — session discovery -/

/-- The Netflix player session object, as the core uses it: an abstract
handle with the `getMovieId()` accessor. -/
structure PlayerSession where
  movieId : String
deriving Repr, DecidableEq

/-- Model of `api.videoPlayer`: `getAllPlayerSessionIds?.()` (guarded by
`Array.isArray`, so a non-array is `none`) and
`getVideoPlayerBySessionId`. -/
structure VideoPlayer where
  sessionIds : Option (List String)
  sessionById : String → Option PlayerSession

/-- Model of `window.netflix?.appContext?.state?.playerApp` with the
`getAPI?.().videoPlayer` chain collapsed into one optional field: any
absent link of the chain makes `videoPlayer` undefined. -/
structure PlayerApp where
  videoPlayer : Option VideoPlayer

/-- One snapshot of the external host's object graph, as read by one
attempt of `getPlayerAPI`. -/
structure HostState where
  playerApp : Option PlayerApp

/-- The body of one `getPlayerAPI` attempt: `none` when the player app
is absent, the session ids are not an array or empty, the first id is
falsy (empty), or `getVideoPlayerBySessionId` yields nothing; otherwise
the session object paired with the chosen session id (the first). -/
def tryGetSession (h : HostState) : Option (PlayerSession × String) :=
  match h.playerApp with
  | none => none
  | some app =>
    match app.videoPlayer with
    | none => none
    | some vp =>
      let sessionIds := (vp.sessionIds).getD []
      match sessionIds.head? with
      | none => none
      | some sessionId =>
        if sessionId = "" then none
        else (vp.sessionById sessionId).map (fun s => (s, sessionId))

/-- What one `getPlayerAPI` call produces in the model: the discovered
session (the source also bundles `playerApp`, `api` and `videoPlayer`
references, irrelevant to the verified properties), the list of
`sleep(delay)` suspensions performed, and the number of attempts
made. -/
structure DiscoveryResult where
  session : Option (PlayerSession × String)
  sleeps : List Nat
  attempts : Nat
deriving Repr, DecidableEq

/-- The retry loop of `getPlayerAPI`.  `host t` is the host's object
graph at the time of the `t`-th read; `fuel` is the number of attempts
left (`maxAttempts - attempt`).  On failure the loop sleeps the current
delay, then grows it: `Math.min(Math.floor(delay * 1.5), maxDelayMs)`,
which for the exactly representable values reached here equals
`min (delay * 3 / 2) maxDelayMs` in `Nat` arithmetic.  A success
returns immediately, without a trailing sleep. -/
def getPlayerAPIGo (host : Nat → HostState) (t fuel delay maxDelayMs : Nat) :
    DiscoveryResult :=
  match fuel with
  | 0 => ⟨none, [], 0⟩
  | fuel' + 1 =>
    match tryGetSession (host t) with
    | some s => ⟨some s, [], 1⟩
    | none =>
      let rest := getPlayerAPIGo host (t + 1) fuel'
        (min (delay * 3 / 2) maxDelayMs) maxDelayMs
      ⟨rest.session, delay :: rest.sleeps, rest.attempts + 1⟩

/-- Model of `getPlayerAPI(options)` with explicit options
(`maxAttempts`, `delayMs`, `maxDelayMs`); the backoff factor is the
default `1.5`. -/
def getPlayerAPI (host : Nat → HostState) (t maxAttempts delayMs maxDelayMs : Nat) :
    DiscoveryResult :=
  getPlayerAPIGo host t maxAttempts delayMs maxDelayMs

/-- Model of `getPlayerAPI()` with every option defaulted:
`maxAttempts = 20`, `delayMs = 250`, `backoffFactor = 1.5`,
`maxDelayMs = 2000`. -/
def getPlayerAPIDefaults (host : Nat → HostState) (t : Nat) : DiscoveryResult :=
  getPlayerAPIGo host t 20 250 2000

/-! ## `subtitle-fetcher.js` — subtitle cache and network feed -/

/-- The module-scoped mutable state of `subtitle-fetcher.js`:
`performanceObserver` (modelled as whether an observer is attached),
`processedUrls`, `subtitleCache` (an insertion-ordered keyed map) and
`playerSessionRef`. -/
structure FetcherState where
  observerAttached : Bool
  processedUrls : List String
  subtitleCache : List (String × List Cue)
  playerSessionRef : Option PlayerSession
deriving Repr, DecidableEq

/-- The state at module load: no observer, empty set, empty cache, no
session. -/
def initialFetcherState : FetcherState :=
  ⟨false, [], [], none⟩

/-- Model of `isSubtitleRequest(url)`:
`url.includes('oca.nflxvideo.net') && url.includes('/?o=')`. -/
def isSubtitleRequest (url : String) : Bool :=
  stringIncludes url "oca.nflxvideo.net" && stringIncludes url "/?o="

/-- Model of `setupSubtitleFetching(playerSession)` — the arm operation.  A
falsy argument logs and returns with the state unchanged.  Otherwise it
stores the session reference, disconnects any previous observer and
attaches a fresh one, and resets `processedUrls` to a new empty set.
`subtitleCache` is not touched. -/
def setupSubtitleFetching (playerSession : Option PlayerSession)
    (st : FetcherState) : FetcherState :=
  match playerSession with
  | none => st
  | some s =>
    { st with
      playerSessionRef := some s
      observerAttached := true
      processedUrls := [] }

/-- JS object-key update `subtitleCache[cacheKey] = cues`: overwrite an
existing key in place, otherwise append the new binding. -/
def cacheInsert (cache : List (String × List Cue)) (key : String)
    (cues : List Cue) : List (String × List Cue) :=
  if (cache.find? (fun kv => kv.1 == key)).isSome then
    cache.map (fun kv => if kv.1 == key then (key, cues) else kv)
  else cache ++ [(key, cues)]

/-- JS template literal `` `${videoId}_${language}` ``: a `null`
language prints as the string `"null"`. -/
def cacheKeyOf (videoId : String) (language : Option String) : String :=
  videoId ++ "_" ++ (match language with | some l => l | none => "null")

/-- Model of `handleSubtitleResponse(xmlString, url)`: parse the fetched body
and store the cues under `` `${videoId}_${language}` ``.  The guard
`!result || !result.cues` never fires (`parseTTML` always returns an
object whose `cues` is an array, and an empty array is truthy); the
store is skipped when no session reference is available. -/
def handleSubtitleResponse (xml : ParserInput) (st : FetcherState) :
    FetcherState :=
  let result := parseTTML xml
  match st.playerSessionRef with
  | none => st
  | some s =>
    { st with
      subtitleCache :=
        cacheInsert st.subtitleCache (cacheKeyOf s.movieId result.language)
          result.cues }

/-- The `PerformanceObserver` callback for one completed resource entry
with URL `url` whose re-fetched body is `body`: a subtitle request not
yet in `processedUrls` is marked processed and its body routed through
`handleSubtitleResponse`; every other entry leaves the state
unchanged. -/
def observeResourceEntry (url : String) (body : ParserInput)
    (st : FetcherState) : FetcherState :=
  if isSubtitleRequest url && !(st.processedUrls.contains url) then
    handleSubtitleResponse body { st with processedUrls := st.processedUrls ++ [url] }
  else st

/-- Model of `getSubtitleCache()` followed by the consumer's read
`cache[cacheKey] || []` (in `content.js`): the cue list stored under
the key, or the empty list. -/
def lookupCache (st : FetcherState) (key : String) : List Cue :=
  ((st.subtitleCache.find? (fun kv => kv.1 == key)).map (fun kv => kv.2)).getD []

/-- Model of `cleanup()` — the disarm operation: disconnect the observer, clear
`processedUrls` and `subtitleCache`, drop the session reference. -/
def cleanup (_st : FetcherState) : FetcherState :=
  ⟨false, [], [], none⟩

/-! ## `content.js` — the session-discovery retry loop of `armVideoFlow` -/

/-- Model of `sessionId.includes('watch')`. -/
def isWatchSessionId (sessionId : String) : Bool :=
  stringIncludes sessionId "watch"

/-- The `while (retryCount < maxRetries)` loop of `armVideoFlow`,
entered once a video element is detected.  `api` carries the result of
the previous `getPlayerAPI()` call (JS keeps the variable across
iterations), `calls` counts the `getPlayerAPI()` invocations so far and
`fuel = maxRetries - retryCount`.  A null result retries immediately; a
session whose id does not contain `'watch'` tears down the transient
observers, sleeps 500 ms and retries (those side effects on
collaborator modules are not part of this count-focused state); a watch
session breaks out of the loop.  Returns the final `api` value and the
total number of `getPlayerAPI()` invocations. -/
def armVideoFlowLoop (host : Nat → HostState) (t : Nat)
    (api : Option (PlayerSession × String)) (calls fuel : Nat) :
    Option (PlayerSession × String) × Nat :=
  match fuel with
  | 0 => (api, calls)
  | fuel' + 1 =>
    let r := getPlayerAPIDefaults host t
    let t' := t + r.attempts
    match r.session with
    | none => armVideoFlowLoop host t' none (calls + 1) fuel'
    | some (s, sessionId) =>
      if sessionId ≠ "" ∧ ¬ isWatchSessionId sessionId then
        armVideoFlowLoop host t' (some (s, sessionId)) (calls + 1) fuel'
      else (some (s, sessionId), calls + 1)

/-- The discovery phase of `armVideoFlow`: run the retry loop with
`maxRetries = 10` from a fresh cycle; the cycle proceeds to arm the
subtitle system iff the final `api?.playerSession` is truthy
(`.1.isSome`), and is abandoned otherwise. -/
def armVideoFlowDiscovery (host : Nat → HostState) :
    Option (PlayerSession × String) × Nat :=
  armVideoFlowLoop host 0 none 0 10

/-! ## Derived notions and helper lemmas -/

/-- A cue list sorted ascending by `start`, the invariant of §3 of the
specification. -/
def sortedByStart (l : List Cue) : Prop :=
  List.Sorted cueLE l

/-- A cue's interval contains the timestamp:
`c.start ≤ t ∧ t < c.end`, as a Boolean predicate. -/
def cueContains (t : Int) (c : Cue) : Bool :=
  decide (c.start ≤ t) && decide (t < c.«end»)

lemma sortedByStart_sortCues (l : List Cue) : sortedByStart (sortCues l) :=
  List.sorted_insertionSort cueLE l

lemma mem_sortCues {c : Cue} {l : List Cue} : c ∈ sortCues l ↔ c ∈ l :=
  List.mem_insertionSort cueLE

/-- The scan loop finds nothing when the timestamp is at or past every
cue's end (no sortedness needed: containment requires `t < c.end`). -/
lemma findCueAtList_eq_none_of_all_le {t : Int} :
    ∀ {cues : List Cue}, (∀ c ∈ cues, c.«end» ≤ t) →
      findCueAtList t cues = none := by
  intro cues h
  induction cues with
  | nil => rfl
  | cons c rest ih =>
    have hc : c.«end» ≤ t := h c (List.mem_cons_self c rest)
    have hnc : ¬ (c.start ≤ t ∧ t < c.«end») := fun hco => absurd hco.2 (not_lt.mpr hc)
    by_cases hlt : t < c.start
    · simp [findCueAtList, hnc, hlt]
    · simp [findCueAtList, hnc, hlt]
      exact ih (fun d hd => h d (List.mem_cons_of_mem c hd))

/-! ## Claims about `findCueAt` -/

/-- C10.  Unconditional soundness of lookup: for every timestamp and
every cue array whatsoever (sorted or not), if `findCueAt` returns a
cue `c` rather than none, then `c` is an element of the array and
`c.start ≤ timestamp < c.end`. -/
theorem findCueAt_sound (t : Int) (cues : List Cue) (c : Cue)
    (h : findCueAt t (.array cues) = some c) :
    c ∈ cues ∧ c.start ≤ t ∧ t < c.«end» := by
  induction cues with
  | nil => exact absurd h (by simp [findCueAt, findCueAtList])
  | cons d rest ih =>
    by_cases hco : d.start ≤ t ∧ t < d.«end»
    · have hd : some d = some c := by
        simpa [findCueAt, findCueAtList, hco] using h
      obtain rfl : d = c := Option.some.inj hd
      exact ⟨List.mem_cons_self d rest, hco⟩
    · by_cases hlt : t < d.start
      · exact absurd h (by simp [findCueAt, findCueAtList, hco, hlt])
      · have h' : findCueAt t (.array rest) = some c := by
          simpa [findCueAt, findCueAtList, hco, hlt] using h
        obtain ⟨hm, hp⟩ := ih h'
        exact ⟨List.mem_cons_of_mem d hm, hp⟩

/-- Witness for C10 at a concrete input: for the one-cue array
`[⟨"x", 0, 2⟩]` and timestamp `1`, `findCueAt` returns that cue, which
is a member and contains the timestamp. -/
theorem findCueAt_sound_witness :
    (⟨"x", 0, 2⟩ : Cue) ∈ [(⟨"x", 0, 2⟩ : Cue)] ∧
      (⟨"x", 0, 2⟩ : Cue).start ≤ 1 ∧ (1 : Int) < (⟨"x", 0, 2⟩ : Cue).«end» :=
  findCueAt_sound 1 [⟨"x", 0, 2⟩] ⟨"x", 0, 2⟩ rfl

/-- C5.  For every timestamp and every cue list sorted ascending by
start, `findCueAt` returns the first cue (lowest index) whose interval
contains the timestamp — i.e. it agrees with `List.find?` on the
containment predicate, which also makes it return none when no cue
matches (in particular the early exit at the first cue whose start
exceeds the timestamp skips no possible match, starts being sorted);
and a non-array argument or an empty list yields none rather than an
error. -/
theorem findCueAt_first_containing (t : Int) (cues : List Cue)
    (hs : sortedByStart cues) :
    findCueAt t (.array cues) = cues.find? (cueContains t) ∧
    findCueAt t .notArray = none ∧
    findCueAt t (.array []) = none := by
  refine ⟨?_, rfl, rfl⟩
  induction cues with
  | nil => rfl
  | cons c rest ih =>
    have hs' : List.Sorted cueLE (c :: rest) := hs
    obtain ⟨hrel, hrest⟩ := List.sorted_cons.mp hs'
    by_cases hco : c.start ≤ t ∧ t < c.«end»
    · have hpc : cueContains t c = true := by
        simp [cueContains, hco.1, hco.2]
      simp [findCueAt, findCueAtList, hco, List.find?_cons_of_pos _ hpc]
    · have hpc : cueContains t c = false := by
        rcases not_and_or.mp hco with h1 | h2
        · simp [cueContains, h1]
        · simp [cueContains, h2]
      have hpc' : ¬ cueContains t c = true := by simp [hpc]
      by_cases hlt : t < c.start
      · have hrestnone : rest.find? (cueContains t) = none := by
          refine List.find?_eq_none.mpr (fun b hb => ?_)
          have hcb : c.start ≤ b.start := hrel b hb
          have : ¬ b.start ≤ t := not_le.mpr (lt_of_lt_of_le hlt hcb)
          simp [cueContains, this]
        simp [findCueAt, findCueAtList, hco, hlt,
          List.find?_cons_of_neg _ hpc', hrestnone]
      · have ihr := ih hrest
        simp only [findCueAt] at ihr
        simp [findCueAt, findCueAtList, hco, hlt,
          List.find?_cons_of_neg _ hpc', ihr]

/-- Witness for C5 at a concrete input: the sorted two-cue list of the
specification scenario and timestamp `3000`, on which `findCueAt`
agrees with the first-containing-cue description and the degenerate
arguments yield none. -/
theorem findCueAt_first_containing_witness :
    findCueAt 3000 (.array [⟨"Hello", 0, 3000⟩, ⟨"World", 3000, 6000⟩]) =
      [(⟨"Hello", 0, 3000⟩ : Cue), ⟨"World", 3000, 6000⟩].find? (cueContains 3000) ∧
    findCueAt 3000 .notArray = none ∧
    findCueAt 3000 (.array []) = none :=
  findCueAt_first_containing 3000 [⟨"Hello", 0, 3000⟩, ⟨"World", 3000, 6000⟩]
    (by simp [sortedByStart, List.sorted_cons, cueLE])

/-- C4 (amended).  For every cue list sorted ascending by start,
`findCueAt` returns none for every timestamp strictly before the first
cue's start, and for every timestamp at or after the end of *every*
cue (in particular at or after the maximum end).  The original claim
— none at or after merely the *last* cue's end — fails for overlapping
ranges; see the counterexample. -/
theorem findCueAt_none_outside (t : Int) (cues : List Cue)
    (hs : sortedByStart cues)
    (h : (∃ c₀, cues.head? = some c₀ ∧ t < c₀.start) ∨
      (∀ c ∈ cues, c.«end» ≤ t)) :
    findCueAt t (.array cues) = none := by
  rcases h with ⟨c₀, hh, ht⟩ | hall
  · match cues, hh with
    | c :: rest, hh =>
      obtain rfl : c = c₀ := by simpa using hh
      have hnc : ¬ (c.start ≤ t ∧ t < c.«end») :=
        fun hco => absurd hco.1 (not_le.mpr ht)
      simp [findCueAt, findCueAtList, hnc, ht]
  · exact findCueAtList_eq_none_of_all_le hall

/-- Witness for C4 at a concrete input: the sorted one-cue list
`[⟨"a", 10, 20⟩]` and timestamp `5`, strictly before the first start. -/
theorem findCueAt_none_outside_witness :
    findCueAt 5 (.array [⟨"a", 10, 20⟩]) = none :=
  findCueAt_none_outside 5 [⟨"a", 10, 20⟩]
    (List.sorted_singleton _)
    (Or.inl ⟨⟨"a", 10, 20⟩, rfl, by decide⟩)

/-- Sorted-by-start cue list with overlapping ranges on which C4 as
stated fails: the second (last) cue ends at `2`, yet a later timestamp
is still inside the first, longer cue. -/
def overlapCues : List Cue :=
  [⟨"long", 0, 100⟩, ⟨"short", 1, 2⟩]

/-- Counterexample to C4 as stated: `overlapCues` is sorted ascending
by start, the timestamp `50` is at/after the last cue's end (`2`), yet
`findCueAt` returns the first cue instead of none. -/
theorem findCueAt_after_last_end_overlap :
    sortedByStart overlapCues ∧
    overlapCues.getLast? = some ⟨"short", 1, 2⟩ ∧
    (⟨"short", 1, 2⟩ : Cue).«end» ≤ 50 ∧
    findCueAt 50 (.array overlapCues) = some ⟨"long", 0, 100⟩ :=
  ⟨by simp [sortedByStart, overlapCues, List.sorted_cons, cueLE],
    rfl, by decide, rfl⟩

/-! ## Claims about `parseTTML` -/

/-- Every paragraph of the document that survives the per-node step
converts to a cue whose end is strictly after its start.  This is the
side condition under which the second half of C1 holds; the parser
itself never checks it. -/
def docCueTimesOk (root : XmlNode) : Bool :=
  (queryBodyPs root).all fun p =>
    match cueOfP (docTickRate root) p with
    | some c => decide (c.start < c.«end»)
    | none => true

/-- The two-paragraph TTML document of the specification's scenario:
`xml:lang="pl"`, default tick rate, cues "Hello" `[0, 3000)` and
"World" `[3000, 6000)`. -/
def demoRoot : XmlNode :=
  .elem "tt" [("xml:lang", "pl")]
    [.elem "body" []
      [.elem "div" []
        [.elem "p" [("begin", "0t"), ("end", "30000000t")] [.text "Hello"],
          .elem "p" [("begin", "30000000t"), ("end", "60000000t")] [.text "World"]]]]

/-- C1 (amended).  For every input, the cue list returned by
`parseTTML` is sorted ascending by start time; and every cue has end
strictly greater than start for documents whose kept paragraphs all
convert to positive-length cues (`docCueTimesOk`).  The original claim
asserted end > start for *every* input document, which the parser does
not enforce; see the counterexample. -/
theorem parseTTML_cues_sorted_end_gt_start (root : XmlNode)
    (hend : docCueTimesOk root = true) :
    (∀ input, sortedByStart (parseTTML input).cues) ∧
    (∀ c ∈ (parseTTML (.doc root)).cues, c.start < c.«end») := by
  constructor
  · intro input
    match input with
    | .notAString => exact List.sorted_nil
    | .invalidXml => exact List.sorted_nil
    | .doc r => exact sortedByStart_sortCues _
  · intro c hc
    have hc' : c ∈ (queryBodyPs root).filterMap (cueOfP (docTickRate root)) :=
      mem_sortCues.mp hc
    obtain ⟨p, hp, hpc⟩ := List.mem_filterMap.mp hc'
    have hall := List.all_eq_true.mp hend p hp
    rw [hpc] at hall
    exact of_decide_eq_true hall

/-- Witness for C1 at a concrete input: the scenario document
`demoRoot` satisfies the side condition, so its parse is sorted and
every cue has end after start. -/
theorem parseTTML_cues_sorted_end_gt_start_witness :
    (∀ input, sortedByStart (parseTTML input).cues) ∧
    (∀ c ∈ (parseTTML (.doc demoRoot)).cues, c.start < c.«end») :=
  parseTTML_cues_sorted_end_gt_start demoRoot (by decide)

/-- A document whose single paragraph carries `begin="0t" end="0t"`:
both times convert to `0` ms. -/
def zeroLengthRoot : XmlNode :=
  .elem "tt" []
    [.elem "body" []
      [.elem "p" [("begin", "0t"), ("end", "0t")] [.text "Hi"]]]

/-- Counterexample to C1 as stated: `parseTTML` keeps a cue whose end
is not strictly greater than its start (here end = start = 0), because
the per-node step never compares the two converted times. -/
theorem parseTTML_zero_length_cue :
    ∃ c ∈ (parseTTML (.doc zeroLengthRoot)).cues, c.«end» ≤ c.start := by
  decide

/-- A `begin`/`end` attribute value is falsy for the skip guard
`if (!begin || !end) continue`: absent (`null`) or the empty string. -/
def missingOrEmpty (o : Option String) : Prop :=
  o = none ∨ o = some ""

/-- C3 (amended).  A paragraph node is skipped — contributes no cue —
when its `begin` or `end` attribute is missing or empty (or when its
extracted text is empty), and the decision is per node: the whole
document parses as the independent per-paragraph conversion of every
`body p` node, sorted.  A present but malformed attribute does *not*
skip the node: the malformed time converts to `0` ms and the cue is
kept (see the counterexample). -/
theorem cueOfP_skip_missing_or_empty (tickRate : Int) (p : XmlNode)
    (h : missingOrEmpty (getAttribute p "begin") ∨
      missingOrEmpty (getAttribute p "end")) :
    cueOfP tickRate p = none ∧
    ∀ root, (parseTTML (.doc root)).cues =
      sortCues ((queryBodyPs root).filterMap (cueOfP (docTickRate root))) := by
  refine ⟨?_, fun root => rfl⟩
  rcases hbeg : getAttribute p "begin" with _ | b
  · simp [cueOfP, hbeg]
  · rcases hen : getAttribute p "end" with _ | e
    · simp [cueOfP, hbeg, hen]
    · have hbe : b = "" ∨ e = "" := by
        rcases h with (h1 | h1) | (h1 | h1)
        · rw [hbeg] at h1; cases h1
        · rw [hbeg] at h1; exact Or.inl (Option.some.inj h1)
        · rw [hen] at h1; cases h1
        · rw [hen] at h1; exact Or.inr (Option.some.inj h1)
      simp only [cueOfP, hbeg, hen]
      rw [if_pos hbe]

/-- Witness for C3 at a concrete input: a paragraph with no `begin`
attribute contributes no cue, and document parsing is the sorted
per-node conversion. -/
theorem cueOfP_skip_missing_or_empty_witness :
    cueOfP 10000000 (.elem "p" [("end", "30000000t")] [.text "Hi"]) = none ∧
    ∀ root, (parseTTML (.doc root)).cues =
      sortCues ((queryBodyPs root).filterMap (cueOfP (docTickRate root))) :=
  cueOfP_skip_missing_or_empty 10000000 (.elem "p" [("end", "30000000t")] [.text "Hi"])
    (Or.inl (Or.inl rfl))

/-- A document whose single paragraph has present but malformed
`begin`/`end` attributes (no `"<integer>t"` shape). -/
def malformedTimesRoot : XmlNode :=
  .elem "tt" []
    [.elem "body" []
      [.elem "p" [("begin", "abc"), ("end", "xyz")] [.text "Hi"]]]

/-- Counterexample to C3 as stated: a paragraph whose `begin` and
`end` are present but malformed is *not* skipped — `timeToMs` maps
both to `0` and the node still contributes a cue, so the returned cue
list is non-empty. -/
theorem parseTTML_malformed_times_not_skipped :
    parseTTML (.doc malformedTimesRoot) = ⟨[⟨"Hi", 0, 0⟩], none⟩ ∧
    (parseTTML (.doc malformedTimesRoot)).cues ≠ [] := by
  exact ⟨rfl, by decide⟩

/-- C8.  `parseTTML` never throws — the embedded function is total on
every input shape, including a non-string argument and a structurally
invalid document — and on malformed input it returns the safe default
`{ cues: [], language: null }`.  (Traversal of the modelled document
tree is pure, so the catch-all arm of the source's try/catch is
unreachable in the model; the only side effect of the source on these
paths is logging.) -/
theorem parseTTML_never_throws_safe_default :
    parseTTML .notAString = ⟨[], none⟩ ∧
    parseTTML .invalidXml = ⟨[], none⟩ :=
  ⟨rfl, rfl⟩

/-- C9.  A bare root language tag `"en"` is normalised to `"en-US"`
and any other present (non-empty) tag passes through verbatim; and
`52500000` ticks at tick rate `10000000` convert to exactly `5250` ms
under the rounding `round(ticks / tickRate * 1000)`. -/
theorem parseTTML_language_and_tick_roundtrip (root : XmlNode) (lang : String)
    (hpres : getAttribute root "xml:lang" = some lang) (hne : lang ≠ "") :
    (parseTTML (.doc root)).language =
      some (if lang = "en" then "en-US" else lang) ∧
    timeToMs "52500000t" 10000000 = 5250 := by
  refine ⟨?_, rfl⟩
  simp [parseTTML, docLanguage, hpres, hne]

/-- Witness for C9 at a concrete input: a root with `xml:lang="en"`
yields language `"en-US"`, and the tick conversion gives `5250`. -/
theorem parseTTML_language_and_tick_roundtrip_witness :
    (parseTTML (.doc (.elem "tt" [("xml:lang", "en")] []))).language =
      some (if "en" = "en" then "en-US" else "en") ∧
    timeToMs "52500000t" 10000000 = 5250 :=
  parseTTML_language_and_tick_roundtrip (.elem "tt" [("xml:lang", "en")] []) "en"
    rfl (by decide)

/-! ## Claims about the subtitle cache lifecycle -/

/-- C2 (amended).  A second `setupSubtitleFetching` call without an
intervening `cleanup` resets the processed-URL set (so a URL processed
in the prior armed session can be reprocessed), but leaves every
previously cached cue list in place — only `cleanup` clears the cue
cache (and the processed-URL set).  The original claim asserted that
re-arming also clears the cache; see the counterexample. -/
theorem rearm_clears_urls_not_cache (s : PlayerSession) (st : FetcherState) :
    (setupSubtitleFetching (some s) st).processedUrls = [] ∧
    (setupSubtitleFetching (some s) st).subtitleCache = st.subtitleCache ∧
    (cleanup st).subtitleCache = [] ∧
    (cleanup st).processedUrls = [] :=
  ⟨rfl, rfl, rfl, rfl⟩

/-- A subtitle-document URL matching the caption-endpoint pattern. -/
def sampleSubtitleUrl : String :=
  "https://ipv4-c001.oca.nflxvideo.net/abc/?o=1&v=2"

/-- The fetcher state after arming for movie `"70000001"` and
observing one subtitle request whose body is the scenario document
(language `"pl"`). -/
def stateAfterFirstArm : FetcherState :=
  observeResourceEntry sampleSubtitleUrl (.doc demoRoot)
    (setupSubtitleFetching (some ⟨"70000001"⟩) initialFetcherState)

/-- The same state after a second arm call, for a different movie,
with no intervening `cleanup`. -/
def stateAfterRearm : FetcherState :=
  setupSubtitleFetching (some ⟨"70000002"⟩) stateAfterFirstArm

/-- Counterexample to C2 as stated: after the re-arm the processed-URL
set is empty, yet the lookup for the *previous* content identifier
still returns the cue list cached in the prior armed session — the
re-arm did not clear the cue cache. -/
theorem rearm_returns_stale_cache :
    stateAfterRearm.processedUrls = [] ∧
    lookupCache stateAfterRearm (cacheKeyOf "70000001" (some "pl")) =
      [⟨"Hello", 0, 3000⟩, ⟨"World", 3000, 6000⟩] := by
  exact ⟨rfl, by decide⟩

/-! ## Claims about session discovery and its retries -/

/-- A host on which no attempt ever finds a session: the player app is
never exposed. -/
def hostNeverReady : Nat → HostState :=
  fun _ => ⟨none⟩

/-- Against a host on which every read fails, the discovery loop makes
exactly `fuel` attempts, finds nothing, and sleeps once after every
failed attempt with the geometric delays. -/
lemma getPlayerAPIGo_never (host : Nat → HostState)
    (h : ∀ n, tryGetSession (host n) = none) :
    ∀ fuel t delay maxDelayMs,
      (getPlayerAPIGo host t fuel delay maxDelayMs).session = none ∧
      (getPlayerAPIGo host t fuel delay maxDelayMs).attempts = fuel := by
  intro fuel
  induction fuel with
  | zero => intro t delay maxDelayMs; exact ⟨rfl, rfl⟩
  | succ fuel' ih =>
    intro t delay maxDelayMs
    have := ih (t + 1) (min (delay * 3 / 2) maxDelayMs) maxDelayMs
    simp [getPlayerAPIGo, h, this.1, this.2]

/-- C6.  Session discovery with `maxAttempts = 3` against a host that
never yields a valid session makes exactly 3 attempts and returns
none; the delay starts at 250 ms and grows to 375 ms between attempts
(each step multiplies by 1.5, floored, capped at `maxDelayMs = 2000`);
the loop also sleeps a grown 562 ms once more after the final failed
attempt before returning. -/
theorem getPlayerAPI_three_attempts_backoff (host : Nat → HostState)
    (h : ∀ n, tryGetSession (host n) = none) :
    getPlayerAPI host 0 3 250 2000 = ⟨none, [250, 375, 562], 3⟩ ∧
    (getPlayerAPI host 0 3 250 2000).sleeps.take 2 = [250, 375] := by
  have he : getPlayerAPI host 0 3 250 2000 = ⟨none, [250, 375, 562], 3⟩ := by
    simp [getPlayerAPI, getPlayerAPIGo, h]
  exact ⟨he, by rw [he]; rfl⟩


/-- Witness for C6 at a concrete input: the host that never exposes a
player app. -/
theorem getPlayerAPI_three_attempts_backoff_witness :
    getPlayerAPI hostNeverReady 0 3 250 2000 = ⟨none, [250, 375, 562], 3⟩ ∧
    (getPlayerAPI hostNeverReady 0 3 250 2000).sleeps.take 2 = [250, 375] :=
  getPlayerAPI_three_attempts_backoff hostNeverReady (fun _ => rfl)

/-- Against a host on which every read fails, each loop iteration of
`armVideoFlow` calls `getPlayerAPI()` once, gets null, and retries
until `maxRetries` is exhausted. -/
lemma armVideoFlowLoop_never (host : Nat → HostState)
    (h : ∀ n, tryGetSession (host n) = none) :
    ∀ fuel t calls,
      armVideoFlowLoop host t none calls fuel = (none, calls + fuel) := by
  intro fuel
  induction fuel with
  | zero => intro t calls; rfl
  | succ fuel' ih =>
    intro t calls
    have hs := (getPlayerAPIGo_never host h 20 t 250 2000).1
    simp only [armVideoFlowLoop, getPlayerAPIDefaults, hs, ih, Prod.mk.injEq,
      true_and]
    omega

/-- C7 (amended).  When session discovery exhausts its attempts and
returns none, the lifecycle coordinator does *not* treat that first
null as terminal: `armVideoFlow`'s own retry loop invokes
`getPlayerAPI()` again, up to `maxRetries = 10` invocations within the
navigation cycle; only after the 10th null result is the cycle
abandoned (no session, no arming).  The original claim said discovery
is never invoked again after one exhausted call; see the
counterexample. -/
theorem armVideoFlow_retry_bound (host : Nat → HostState)
    (h : ∀ n, tryGetSession (host n) = none) :
    armVideoFlowDiscovery host = (none, 10) := by
  have := armVideoFlowLoop_never host h 10 0 0
  simpa [armVideoFlowDiscovery] using this

/-- Witness for C7 at a concrete input: the host that never exposes a
player app. -/
theorem armVideoFlow_retry_bound_witness :
    armVideoFlowDiscovery hostNeverReady = (none, 10) :=
  armVideoFlow_retry_bound hostNeverReady (fun _ => rfl)

/-- Counterexample to C7 as stated: on a host where the very first
`getPlayerAPI()` call exhausts its 20 attempts and returns null, the
coordinator still ends the cycle having invoked discovery 10 times —
it retries the exhausted discovery instead of stopping after one
call. -/
theorem armVideoFlow_retries_after_exhaustion :
    (getPlayerAPIDefaults hostNeverReady 0).session = none ∧
    (armVideoFlowDiscovery hostNeverReady).2 = 10 ∧
    (armVideoFlowDiscovery hostNeverReady).2 ≠ 1 :=
  ⟨rfl, rfl, by decide⟩

end LinguaFlix
